import Mathlib

/-!
Verification of the fixed-length 120-byte record codec of `try_py_struct`
(`src/generate_records.py`, `src/record_parser.py`, `src/struct_size.py`).

The Python code builds the codec from the `construct` library:

* `ShiftJISString(length)` — a fixed-length text field whose `_encode` is
  `obj.encode('shift_jis')`, an overflow check against `length`, and
  `ljust(length, b'\x00')`; its `_decode` is `obj.rstrip(b'\x00')` followed by
  `decode('shift_jis', errors='ignore')`.
* `PaddedString(n, "ascii")` — builds by encoding to ASCII and zero-padding to
  `n` (error when longer), parses by stripping trailing zero bytes and
  strictly decoding as ASCII.
* `Int8ul/Int32ul/Int64ul` — little-endian fixed-width unsigned integers.
* `Const(k, Int8ul)` — a fixed discriminant byte checked at parse time.

Bytes are modelled as `Nat` (values < 256 where produced by an encoder).  The
external `shift_jis` codec is modelled at the byte-structure level: a string
is a list of `SJChar`, each carrying its one- or two-byte shift_jis
representation; single-byte characters live in 0x00–0x7F and 0xA1–0xDF, lead
bytes in 0x81–0x9F and 0xE0–0xEF, trail bytes in 0x40–0x7E and 0x80–0xFC.
The `errors='ignore'` decoder drops one undecodable byte at a time and
re-examines the following byte, matching CPython's behaviour.
-/

set_option maxRecDepth 20000

namespace TryPyStruct

/-- Single-byte character range of shift_jis (ASCII plus half-width katakana). -/
def isSingleByte (b : Nat) : Bool :=
  decide (b ≤ 127) || (decide (161 ≤ b) && decide (b ≤ 223))

/-- Lead-byte range of a two-byte shift_jis character. -/
def isLeadByte (b : Nat) : Bool :=
  (decide (129 ≤ b) && decide (b ≤ 159)) || (decide (224 ≤ b) && decide (b ≤ 239))

/-- Trail-byte range of a two-byte shift_jis character. -/
def isTrailByte (b : Nat) : Bool :=
  (decide (64 ≤ b) && decide (b ≤ 126)) || (decide (128 ≤ b) && decide (b ≤ 252))

/-- One character of a shift_jis-representable string, carried as its byte
representation (one byte for ASCII/half-width, two bytes for full-width). -/
inductive SJChar where
  | single (b : Nat)
  | double (b1 b2 : Nat)
deriving DecidableEq

/-- A character is shift_jis-encodable when its bytes are in range. -/
def SJChar.valid : SJChar → Bool
  | .single b => isSingleByte b
  | .double b1 b2 => isLeadByte b1 && isTrailByte b2

/-- The shift_jis bytes of one character. -/
def SJChar.bytes : SJChar → List Nat
  | .single b => [b]
  | .double b1 b2 => [b1, b2]

/-- Concatenated shift_jis encoding of a string (Python `str.encode('shift_jis')`). -/
def sjisEncode : List SJChar → List Nat
  | [] => []
  | c :: cs => c.bytes ++ sjisEncode cs

/-- Total shift_jis decoder with `errors='ignore'`: a single-range byte decodes
to itself; a lead byte followed by a trail byte decodes as a two-byte
character; any other byte (bad single, lead at end, lead before a non-trail
byte) is dropped and decoding continues at the next byte. -/
def sjisDecodeIgnore : List Nat → List SJChar
  | [] => []
  | [b] => if isSingleByte b then [.single b] else []
  | b :: b2 :: rest =>
    if isSingleByte b then .single b :: sjisDecodeIgnore (b2 :: rest)
    else if isLeadByte b then
      if isTrailByte b2 then .double b b2 :: sjisDecodeIgnore rest
      else sjisDecodeIgnore (b2 :: rest)
    else sjisDecodeIgnore (b2 :: rest)

/-- Python `bytes.rstrip(b'\x00')`: remove trailing zero bytes. -/
def rstripZeros (l : List Nat) : List Nat :=
  (l.reverse.dropWhile (fun b => b == 0)).reverse

/-- Python `bytes.ljust(n, b'\x00')`: right-pad with zero bytes to length `n`. -/
def ljustZero (n : Nat) (l : List Nat) : List Nat :=
  l ++ List.replicate (n - l.length) 0

/-- Failure modes of building (encoding) a record, per the error taxonomy:
a text field's shift_jis bytes exceeding its capacity is the TextOverflow
error (`ValueError` raised by `ShiftJISString._encode`); the others model the
library errors for unencodable text and out-of-range integers. -/
inductive EncodeError where
  | sjisUnencodable
  | textOverflow
  | asciiUnencodable
  | asciiOverflow
  | intOverflow
deriving DecidableEq

/-- Failure modes of parsing, per the error taxonomy: FrameLengthError
(`ValueError` for a non-120-byte frame in `parse_record`),
MismatchedDiscriminant (`ConstError` from a record codec's `Const` field),
UnknownDiscriminant (`ValueError` for a first byte outside {1,2,8}), plus the
library errors for short data and non-ASCII bytes in an ASCII field. -/
inductive ParseError where
  | frameLength
  | mismatchedDiscriminant
  | unknownDiscriminant
  | insufficientData
  | asciiUndecodable
deriving DecidableEq

instance exceptDecEq {ε α : Type} [DecidableEq ε] [DecidableEq α] :
    DecidableEq (Except ε α) := fun x y =>
  match x, y with
  | .error a, .error b =>
    if h : a = b then isTrue (by rw [h])
    else isFalse (by intro hc; cases hc; exact h rfl)
  | .error _, .ok _ => isFalse (by intro hc; cases hc)
  | .ok _, .error _ => isFalse (by intro hc; cases hc)
  | .ok a, .ok b =>
    if h : a = b then isTrue (by rw [h])
    else isFalse (by intro hc; cases hc; exact h rfl)

/-- ShiftJISString._encode: shift_jis-encode the string, fail when the byte
length exceeds the field length, else zero-pad to exactly the field length. -/
def sjisFieldEncode (length : Nat) (s : List SJChar) : Except EncodeError (List Nat) :=
  if ¬ s.all SJChar.valid then .error .sjisUnencodable
  else if (sjisEncode s).length > length then .error .textOverflow
  else .ok (ljustZero length (sjisEncode s))

/-- ShiftJISString._decode: strip trailing zero bytes, then shift_jis-decode
with `errors='ignore'`.  Total: never fails. -/
def sjisFieldDecode (bs : List Nat) : List SJChar :=
  sjisDecodeIgnore (rstripZeros bs)

/-- PaddedString(width, "ascii") build: fail on a non-ASCII character or when
longer than the field, else zero-pad to exactly the field width. -/
def asciiFieldEncode (width : Nat) (s : List Nat) : Except EncodeError (List Nat) :=
  if ¬ s.all (fun b => decide (b < 128)) then .error .asciiUnencodable
  else if s.length > width then .error .asciiOverflow
  else .ok (ljustZero width s)

/-- PaddedString(width, "ascii") parse: strip trailing zero bytes, then decode
strictly as ASCII (fails on a byte ≥ 128). -/
def asciiFieldDecode (bs : List Nat) : Except ParseError (List Nat) :=
  if (rstripZeros bs).all (fun b => decide (b < 128)) then .ok (rstripZeros bs)
  else .error .asciiUndecodable

/-- Little-endian byte list of a `w`-byte unsigned integer (struct `<` packing). -/
def uintBytesLE : Nat → Nat → List Nat
  | 0, _ => []
  | w + 1, v => v % 256 :: uintBytesLE w (v / 256)

/-- Value of a little-endian byte list (struct `<` unpacking). -/
def decUintLE : List Nat → Nat
  | [] => 0
  | b :: rest => b + 256 * decUintLE rest

/-- IntNul build: fail when the value does not fit in `w` bytes. -/
def encUintLE (w v : Nat) : Except EncodeError (List Nat) :=
  if v < 256 ^ w then .ok (uintBytesLE w v) else .error .intOverflow

/-- Pull exactly `n` bytes from the front of the input, failing when fewer
remain (the stream read underlying every fixed-width `construct` field). -/
def takeBytes (n : Nat) (bs : List Nat) : Except ParseError (List Nat × List Nat) :=
  if n ≤ bs.length then .ok (bs.take n, bs.drop n) else .error .insufficientData

/-- Const(k, Int8ul) parse: the read byte must equal the fixed discriminant. -/
def checkDisc (bs : List Nat) (expected : Nat) : Except ParseError Unit :=
  if decUintLE bs = expected then .ok () else .error .mismatchedDiscriminant

def RECORD_TYPE_HEADER : Nat := 1
def RECORD_TYPE_DATA : Nat := 2
def RECORD_TYPE_TRAILER : Nat := 8
def RECORD_SIZE : Nat := 120

/-- Logical value of a Header record (`HeaderRecord` struct fields, the
constant discriminant and zero padding excluded). -/
structure HeaderRecord where
  file_name : List SJChar
  creation_date : List Nat
  creation_time : List Nat
  total_records : Nat
  version : List Nat
deriving DecidableEq

/-- Logical value of a Data record. -/
structure DataRecord where
  record_id : Nat
  name : List SJChar
  value : Nat
  status : Nat
  timestamp : List Nat
  description : List SJChar
deriving DecidableEq

/-- Logical value of a Trailer record. -/
structure TrailerRecord where
  data_record_count : Nat
  total_value_sum : Nat
  checksum : Nat
deriving DecidableEq

/-- HeaderRecord.build: discriminant byte 1, file_name[30] shift_jis,
creation_date[8] ascii, creation_time[6] ascii, total_records uint32le,
version[10] ascii, 61 zero bytes of padding. -/
def HeaderRecord.build (h : HeaderRecord) : Except EncodeError (List Nat) := do
  let fn ← sjisFieldEncode 30 h.file_name
  let cd ← asciiFieldEncode 8 h.creation_date
  let ct ← asciiFieldEncode 6 h.creation_time
  let tr ← encUintLE 4 h.total_records
  let v ← asciiFieldEncode 10 h.version
  .ok ([RECORD_TYPE_HEADER] ++ fn ++ cd ++ ct ++ tr ++ v ++ List.replicate 61 0)

/-- DataRecord.build: discriminant byte 2, record_id uint32le, name[50]
shift_jis, value uint32le, status uint8, timestamp[14] ascii,
description[40] shift_jis, 6 zero bytes of padding. -/
def DataRecord.build (d : DataRecord) : Except EncodeError (List Nat) := do
  let rid ← encUintLE 4 d.record_id
  let nm ← sjisFieldEncode 50 d.name
  let vl ← encUintLE 4 d.value
  let st ← encUintLE 1 d.status
  let ts ← asciiFieldEncode 14 d.timestamp
  let ds ← sjisFieldEncode 40 d.description
  .ok ([RECORD_TYPE_DATA] ++ rid ++ nm ++ vl ++ st ++ ts ++ ds ++ List.replicate 6 0)

/-- TrailerRecord.build: discriminant byte 8, data_record_count uint32le,
total_value_sum uint64le, checksum uint32le, 103 zero bytes of padding. -/
def TrailerRecord.build (t : TrailerRecord) : Except EncodeError (List Nat) := do
  let dc ← encUintLE 4 t.data_record_count
  let tv ← encUintLE 8 t.total_value_sum
  let ck ← encUintLE 4 t.checksum
  .ok ([RECORD_TYPE_TRAILER] ++ dc ++ tv ++ ck ++ List.replicate 103 0)

/-- HeaderRecord.parse: fields read in declared order; the discriminant must
equal 1; ASCII fields decode strictly; the 61-byte tail is read and ignored. -/
def HeaderRecord.parse (bs : List Nat) : Except ParseError HeaderRecord := do
  let (disc, r1) ← takeBytes 1 bs
  let _ ← checkDisc disc RECORD_TYPE_HEADER
  let (fnB, r2) ← takeBytes 30 r1
  let (cdB, r3) ← takeBytes 8 r2
  let cd ← asciiFieldDecode cdB
  let (ctB, r4) ← takeBytes 6 r3
  let ct ← asciiFieldDecode ctB
  let (trB, r5) ← takeBytes 4 r4
  let (vB, r6) ← takeBytes 10 r5
  let v ← asciiFieldDecode vB
  let _ ← takeBytes 61 r6
  .ok { file_name := sjisFieldDecode fnB, creation_date := cd, creation_time := ct,
        total_records := decUintLE trB, version := v }

/-- DataRecord.parse: fields read in declared order; the discriminant must
equal 2. -/
def DataRecord.parse (bs : List Nat) : Except ParseError DataRecord := do
  let (disc, r1) ← takeBytes 1 bs
  let _ ← checkDisc disc RECORD_TYPE_DATA
  let (ridB, r2) ← takeBytes 4 r1
  let (nmB, r3) ← takeBytes 50 r2
  let (vlB, r4) ← takeBytes 4 r3
  let (stB, r5) ← takeBytes 1 r4
  let (tsB, r6) ← takeBytes 14 r5
  let ts ← asciiFieldDecode tsB
  let (dsB, r7) ← takeBytes 40 r6
  let _ ← takeBytes 6 r7
  .ok { record_id := decUintLE ridB, name := sjisFieldDecode nmB,
        value := decUintLE vlB, status := decUintLE stB, timestamp := ts,
        description := sjisFieldDecode dsB }

/-- TrailerRecord.parse: fields read in declared order; the discriminant must
equal 8. -/
def TrailerRecord.parse (bs : List Nat) : Except ParseError TrailerRecord := do
  let (disc, r1) ← takeBytes 1 bs
  let _ ← checkDisc disc RECORD_TYPE_TRAILER
  let (dcB, r2) ← takeBytes 4 r1
  let (tvB, r3) ← takeBytes 8 r2
  let (ckB, r4) ← takeBytes 4 r3
  let _ ← takeBytes 103 r4
  .ok { data_record_count := decUintLE dcB, total_value_sum := decUintLE tvB,
        checksum := decUintLE ckB }

/-- A decoded record of any of the three kinds. -/
inductive ParsedRecord where
  | header (h : HeaderRecord)
  | data (d : DataRecord)
  | trailer (t : TrailerRecord)
deriving DecidableEq

/-- The kind tag string returned by `parse_record` alongside the parsed value. -/
def kindTag : ParsedRecord → String
  | .header _ => "HEADER"
  | .data _ => "DATA"
  | .trailer _ => "TRAILER"

/-- detect_record_type: first byte of the frame, `None` when empty. -/
def detect_record_type (data : List Nat) : Option Nat :=
  if data.length < 1 then none else data.head?

/-- parse_record: reject a frame that is not exactly 120 bytes
(FrameLengthError), dispatch on the first byte to the matching record codec,
and reject an unknown discriminant (UnknownDiscriminant). -/
def parse_record (data : List Nat) : Except ParseError ParsedRecord :=
  if data.length ≠ RECORD_SIZE then .error .frameLength
  else match detect_record_type data with
    | some 1 => (HeaderRecord.parse data).map ParsedRecord.header
    | some 2 => (DataRecord.parse data).map ParsedRecord.data
    | some 8 => (TrailerRecord.parse data).map ParsedRecord.trailer
    | _ => .error .unknownDiscriminant

/-- One entry of `parse_stream`'s result list: the dict
`{record_number, record_type, data}` with the 1-based stream position. -/
structure StreamItem where
  record_number : Nat
  record_type : String
  data : ParsedRecord
deriving DecidableEq

/-- Terminal state of the frame reader: clean end of stream (`Done`), a short
final read reported as a warning (`Truncated`), or a propagated parse failure
(`Failed`). -/
inductive StreamOutcome where
  | done
  | truncated
  | failed (e : ParseError)
deriving DecidableEq

/-- One `while` iteration chain of parse_stream, starting at record number
`num`: read 120 bytes; stop cleanly on empty; stop with the truncation warning
on a short read; otherwise parse the frame, failing fast on a parse error, or
append the tagged record and continue. -/
def parseStreamAux (bs : List Nat) (num : Nat) : List StreamItem × StreamOutcome :=
  if bs.isEmpty then ([], .done)
  else if h2 : bs.length < RECORD_SIZE then ([], .truncated)
  else
    match parse_record (bs.take RECORD_SIZE) with
    | .error e => ([], .failed e)
    | .ok r =>
      let rest := parseStreamAux (bs.drop RECORD_SIZE) (num + 1)
      (⟨num, kindTag r, r⟩ :: rest.1, rest.2)
termination_by bs.length
decreasing_by
  simp only [List.length_drop, RECORD_SIZE] at h2 ⊢
  omega

/-- parse_stream: read the whole source in 120-byte frames, numbering records
from 1. -/
def parse_stream (bs : List Nat) : List StreamItem × StreamOutcome :=
  parseStreamAux bs 1

/-- The validity condition the spec states for an ASCII field: every character
below 128 and the string within the field width. -/
def asciiOkClaimed (width : Nat) (s : List Nat) : Bool :=
  s.all (fun b => decide (b < 128)) && decide (s.length ≤ width)

/-- The validity condition the spec states for a shift_jis text field: every
character encodable and the encoded bytes within the field capacity. -/
def sjisOkClaimed (cap : Nat) (s : List SJChar) : Bool :=
  s.all SJChar.valid && decide ((sjisEncode s).length ≤ cap)

/-- ASCII-field validity under which the round-trip actually holds: the spec's
condition plus the string not ending in a NUL character (the decoder strips
trailing zero bytes, so a trailing NUL cannot survive). -/
def asciiOk (width : Nat) (s : List Nat) : Bool :=
  asciiOkClaimed width s && decide (s.getLast? ≠ some 0)

/-- Shift_jis-field validity under which the round-trip actually holds: the
spec's condition plus the encoded bytes not ending in a zero byte. -/
def sjisOk (cap : Nat) (s : List SJChar) : Bool :=
  sjisOkClaimed cap s && decide ((sjisEncode s).getLast? ≠ some 0)

/-- Header validity as the spec claims it (text within capacity only). -/
def HeaderRecord.validClaimed (h : HeaderRecord) : Bool :=
  sjisOkClaimed 30 h.file_name && asciiOkClaimed 8 h.creation_date &&
  asciiOkClaimed 6 h.creation_time && decide (h.total_records < 2 ^ 32) &&
  asciiOkClaimed 10 h.version

/-- Header validity with the no-trailing-NUL amendment. -/
def HeaderRecord.valid (h : HeaderRecord) : Bool :=
  sjisOk 30 h.file_name && asciiOk 8 h.creation_date &&
  asciiOk 6 h.creation_time && decide (h.total_records < 2 ^ 32) &&
  asciiOk 10 h.version

/-- Data validity as the spec claims it (text within capacity, status 0 or 1). -/
def DataRecord.validClaimed (d : DataRecord) : Bool :=
  decide (d.record_id < 2 ^ 32) && sjisOkClaimed 50 d.name &&
  decide (d.value < 2 ^ 32) && (decide (d.status = 0) || decide (d.status = 1)) &&
  asciiOkClaimed 14 d.timestamp && sjisOkClaimed 40 d.description

/-- Data validity with the no-trailing-NUL amendment. -/
def DataRecord.valid (d : DataRecord) : Bool :=
  decide (d.record_id < 2 ^ 32) && sjisOk 50 d.name &&
  decide (d.value < 2 ^ 32) && (decide (d.status = 0) || decide (d.status = 1)) &&
  asciiOk 14 d.timestamp && sjisOk 40 d.description

/-- Trailer validity: the three counters fit their wire widths. -/
def TrailerRecord.valid (t : TrailerRecord) : Bool :=
  decide (t.data_record_count < 2 ^ 32) && decide (t.total_value_sum < 2 ^ 64) &&
  decide (t.checksum < 2 ^ 32)

/-- Validity of a record of any kind (amended form). -/
def ParsedRecord.valid : ParsedRecord → Bool
  | .header h => h.valid
  | .data d => d.valid
  | .trailer t => t.valid

/-- Build a record of any kind with its own codec. -/
def buildRecord : ParsedRecord → Except EncodeError (List Nat)
  | .header h => h.build
  | .data d => d.build
  | .trailer t => t.build

/-- Exit-code behaviour of generate_records.main: `num_records < 1` prints a
validation error and exits 1; any exception from the generation itself is
caught and exits 1; otherwise the process ends normally with 0. -/
def generateMainExit (numRecords : Int) (generationRaises : Bool) : Nat :=
  if numRecords < 1 then 1
  else if generationRaises then 1
  else 0

/-- Exit-code behaviour of record_parser.main: any exception while parsing or
printing is caught and exits 1; otherwise the process ends normally with 0. -/
def parserMainExit (runRaises : Bool) : Nat :=
  if runRaises then 1 else 0

/-- Exit-code behaviour of struct_size.main: an invalid format string raises
`ValueError` and returns 1, any other exception returns 2, success returns 0. -/
def structSizeMainExit (formatInvalid : Bool) (unexpectedRaises : Bool) : Nat :=
  if formatInvalid then 1
  else if unexpectedRaises then 2
  else 0

/-! Helper lemmas about the byte-level primitives. -/

lemma ljustZero_length (n : Nat) (l : List Nat) (h : l.length ≤ n) :
    (ljustZero n l).length = n := by
  simp [ljustZero]
  omega

lemma takeBytes_exact (n : Nat) (l r : List Nat) (hl : l.length = n) :
    takeBytes n (l ++ r) = .ok (l, r) := by
  subst hl
  simp [takeBytes, List.take_left, List.drop_left]

lemma takeBytes_all (n : Nat) (l : List Nat) (hl : l.length = n) :
    takeBytes n l = .ok (l, []) := by
  subst hl
  simp [takeBytes]

lemma dropWhile_zero_replicate (k : Nat) (x : List Nat) :
    List.dropWhile (fun b => b == 0) (List.replicate k 0 ++ x) =
      List.dropWhile (fun b => b == 0) x := by
  induction k with
  | zero => simp
  | succ k ih => simp [List.replicate_succ, List.dropWhile_cons, ih]

lemma rstripZeros_pad (l : List Nat) (k : Nat) :
    rstripZeros (l ++ List.replicate k 0) = rstripZeros l := by
  simp [rstripZeros, List.reverse_append, List.reverse_replicate,
        dropWhile_zero_replicate]

lemma rstripZeros_eq_self (l : List Nat) (h : l.getLast? ≠ some 0) :
    rstripZeros l = l := by
  rw [← List.head?_reverse] at h
  unfold rstripZeros
  cases hr : l.reverse with
  | nil =>
    have : l = [] := by simpa using congrArg List.reverse hr
    simp [this]
  | cons b t =>
    rw [hr] at h
    have hb : (b == 0) = false := by
      simp only [List.head?] at h
      simp only [beq_eq_false_iff_ne, ne_eq]
      intro hb0
      exact h (by rw [hb0])
    rw [List.dropWhile_cons, hb]
    simp only [Bool.false_eq_true, if_false]
    calc ((b :: t) : List Nat).reverse = l.reverse.reverse := by rw [hr]
    _ = l := l.reverse_reverse

lemma rstripZeros_ljust (n : Nat) (l : List Nat) (h : l.getLast? ≠ some 0) :
    rstripZeros (ljustZero n l) = l := by
  rw [ljustZero, rstripZeros_pad, rstripZeros_eq_self l h]

lemma uintBytesLE_length (w v : Nat) : (uintBytesLE w v).length = w := by
  induction w generalizing v with
  | zero => rfl
  | succ w ih => simp [uintBytesLE, ih]

lemma decUintLE_uintBytesLE (w v : Nat) (h : v < 256 ^ w) :
    decUintLE (uintBytesLE w v) = v := by
  induction w generalizing v with
  | zero =>
    have : v = 0 := by simpa using Nat.lt_one_iff.mp (by simpa using h)
    simp [this, uintBytesLE, decUintLE]
  | succ w ih =>
    have hdiv : v / 256 < 256 ^ w := by
      rw [Nat.div_lt_iff_lt_mul (by norm_num)]
      calc v < 256 ^ (w + 1) := h
      _ = 256 ^ w * 256 := by ring
    simp [uintBytesLE, decUintLE, ih _ hdiv, Nat.mod_add_div]

/-! Helper lemmas about the shift_jis byte model. -/

lemma isLead_not_single {b : Nat} (h : isLeadByte b) : isSingleByte b = false := by
  simp only [isLeadByte, Bool.or_eq_true, Bool.and_eq_true, decide_eq_true_eq] at h
  simp only [isSingleByte, Bool.or_eq_false_iff, Bool.and_eq_false_iff,
             decide_eq_false_iff_not, not_le]
  omega

lemma sjisDecodeIgnore_cons_single (b : Nat) (rest : List Nat)
    (h : isSingleByte b) :
    sjisDecodeIgnore (b :: rest) = .single b :: sjisDecodeIgnore rest := by
  cases rest <;> simp [sjisDecodeIgnore, h]

lemma sjisDecodeIgnore_cons_double (b1 b2 : Nat) (rest : List Nat)
    (h1 : isLeadByte b1) (h2 : isTrailByte b2) :
    sjisDecodeIgnore (b1 :: b2 :: rest) = .double b1 b2 :: sjisDecodeIgnore rest := by
  simp [sjisDecodeIgnore, isLead_not_single h1, h1, h2]

lemma sjisDecodeIgnore_sjisEncode (s : List SJChar) (h : s.all SJChar.valid) :
    sjisDecodeIgnore (sjisEncode s) = s := by
  induction s with
  | nil => rfl
  | cons c cs ih =>
    simp only [List.all_cons, Bool.and_eq_true] at h
    obtain ⟨hc, hcs⟩ := h
    cases c with
    | single b =>
      simp only [SJChar.valid] at hc
      simp only [sjisEncode, SJChar.bytes, List.cons_append, List.nil_append]
      rw [sjisDecodeIgnore_cons_single b _ hc, ih hcs]
    | double b1 b2 =>
      simp only [SJChar.valid, Bool.and_eq_true] at hc
      simp only [sjisEncode, SJChar.bytes, List.cons_append, List.nil_append]
      rw [sjisDecodeIgnore_cons_double b1 b2 _ hc.1 hc.2, ih hcs]

/-! Field-level codec lemmas. -/

lemma sjisFieldEncode_ok (cap : Nat) (s : List SJChar) (h : sjisOkClaimed cap s) :
    sjisFieldEncode cap s = .ok (ljustZero cap (sjisEncode s)) := by
  simp only [sjisOkClaimed, Bool.and_eq_true, List.all_eq_true, decide_eq_true_eq] at h
  simp [sjisFieldEncode, List.all_eq_true.mpr h.1, Nat.not_lt.mpr h.2]

lemma sjisFieldDecode_roundtrip (cap : Nat) (s : List SJChar) (h : sjisOk cap s) :
    sjisFieldDecode (ljustZero cap (sjisEncode s)) = s := by
  simp only [sjisOk, sjisOkClaimed, Bool.and_eq_true, decide_eq_true_eq] at h
  rw [sjisFieldDecode, rstripZeros_ljust _ _ h.2]
  exact sjisDecodeIgnore_sjisEncode s h.1.1

lemma asciiFieldEncode_ok (width : Nat) (s : List Nat) (h : asciiOkClaimed width s) :
    asciiFieldEncode width s = .ok (ljustZero width s) := by
  simp only [asciiOkClaimed, Bool.and_eq_true, decide_eq_true_eq] at h
  simp [asciiFieldEncode, h.1, Nat.not_lt.mpr h.2]

lemma asciiFieldDecode_roundtrip (width : Nat) (s : List Nat) (h : asciiOk width s) :
    asciiFieldDecode (ljustZero width s) = .ok s := by
  simp only [asciiOk, asciiOkClaimed, Bool.and_eq_true, decide_eq_true_eq] at h
  rw [asciiFieldDecode]
  rw [rstripZeros_ljust _ _ h.2]
  simp [h.1.1]

@[simp] lemma exceptBind_ok {ε α β : Type} (a : α) (f : α → Except ε β) :
    (Bind.bind (Except.ok a : Except ε α) f) = f a := rfl

lemma sjisOk_claimed {cap : Nat} {s : List SJChar} (h : sjisOk cap s) :
    sjisOkClaimed cap s := by
  simp only [sjisOk, Bool.and_eq_true] at h
  exact h.1

lemma sjisOkClaimed_le {cap : Nat} {s : List SJChar} (h : sjisOkClaimed cap s) :
    (sjisEncode s).length ≤ cap := by
  simp only [sjisOkClaimed, Bool.and_eq_true, decide_eq_true_eq] at h
  exact h.2

lemma asciiOk_claimed {width : Nat} {s : List Nat} (h : asciiOk width s) :
    asciiOkClaimed width s := by
  simp only [asciiOk, Bool.and_eq_true] at h
  exact h.1

lemma asciiOkClaimed_le {width : Nat} {s : List Nat} (h : asciiOkClaimed width s) :
    s.length ≤ width := by
  simp only [asciiOkClaimed, Bool.and_eq_true, decide_eq_true_eq] at h
  exact h.2

/-! Record-level layout lemmas: the explicit byte layout of a successful
build, and the parse of that layout. -/

/-- Wire bytes of a Header whose field encodings all succeed. -/
def headerBytes (h : HeaderRecord) : List Nat :=
  [RECORD_TYPE_HEADER] ++ ljustZero 30 (sjisEncode h.file_name) ++
  ljustZero 8 h.creation_date ++ ljustZero 6 h.creation_time ++
  uintBytesLE 4 h.total_records ++ ljustZero 10 h.version ++ List.replicate 61 0

lemma headerValidClaimed_parts {h : HeaderRecord} (hv : h.validClaimed) :
    sjisOkClaimed 30 h.file_name ∧ asciiOkClaimed 8 h.creation_date ∧
    asciiOkClaimed 6 h.creation_time ∧ h.total_records < 2 ^ 32 ∧
    asciiOkClaimed 10 h.version := by
  simp only [HeaderRecord.validClaimed, Bool.and_eq_true, decide_eq_true_eq] at hv
  tauto

lemma headerValid_parts {h : HeaderRecord} (hv : h.valid) :
    sjisOk 30 h.file_name ∧ asciiOk 8 h.creation_date ∧ asciiOk 6 h.creation_time ∧
    h.total_records < 2 ^ 32 ∧ asciiOk 10 h.version := by
  simp only [HeaderRecord.valid, Bool.and_eq_true, decide_eq_true_eq] at hv
  tauto

lemma headerValid_claimed {h : HeaderRecord} (hv : h.valid) :
    h.validClaimed := by
  obtain ⟨h1, h2, h3, h4, h5⟩ := headerValid_parts hv
  simp only [HeaderRecord.validClaimed, Bool.and_eq_true, decide_eq_true_eq]
  exact ⟨⟨⟨⟨sjisOk_claimed h1, asciiOk_claimed h2⟩, asciiOk_claimed h3⟩, h4⟩,
         asciiOk_claimed h5⟩

lemma encUintLE_ok (w v : Nat) (h : v < 256 ^ w) :
    encUintLE w v = .ok (uintBytesLE w v) := by
  simp only [encUintLE]
  rw [if_pos h]

lemma lt_pow32 {v : Nat} (h : v < 2 ^ 32) : v < 256 ^ 4 := by
  norm_num at h ⊢
  omega

lemma lt_pow64 {v : Nat} (h : v < 2 ^ 64) : v < 256 ^ 8 := by
  norm_num at h ⊢
  omega

lemma headerBuild_eq (h : HeaderRecord) (hv : h.validClaimed) :
    h.build = .ok (headerBytes h) := by
  obtain ⟨h1, h2, h3, h4, h5⟩ := headerValidClaimed_parts hv
  unfold HeaderRecord.build
  rw [sjisFieldEncode_ok _ _ h1, exceptBind_ok, asciiFieldEncode_ok _ _ h2,
      exceptBind_ok, asciiFieldEncode_ok _ _ h3, exceptBind_ok,
      encUintLE_ok 4 _ (lt_pow32 h4), exceptBind_ok,
      asciiFieldEncode_ok _ _ h5, exceptBind_ok, headerBytes]

lemma headerBytes_length (h : HeaderRecord) (hv : h.validClaimed) :
    (headerBytes h).length = 120 := by
  obtain ⟨h1, h2, h3, _, h5⟩ := headerValidClaimed_parts hv
  simp [headerBytes, ljustZero_length _ _ (sjisOkClaimed_le h1),
        ljustZero_length _ _ (asciiOkClaimed_le h2),
        ljustZero_length _ _ (asciiOkClaimed_le h3),
        ljustZero_length _ _ (asciiOkClaimed_le h5), uintBytesLE_length]

lemma headerParse_headerBytes (h : HeaderRecord) (hv : h.valid) :
    HeaderRecord.parse (headerBytes h) = .ok h := by
  obtain ⟨h1, h2, h3, h4, h5⟩ := headerValid_parts hv
  have e30 : ∀ r : List Nat,
      takeBytes 30 (ljustZero 30 (sjisEncode h.file_name) ++ r) =
        .ok (ljustZero 30 (sjisEncode h.file_name), r) :=
    fun r => takeBytes_exact _ _ _
      (ljustZero_length _ _ (sjisOkClaimed_le (sjisOk_claimed h1)))
  have e8 : ∀ r : List Nat,
      takeBytes 8 (ljustZero 8 h.creation_date ++ r) =
        .ok (ljustZero 8 h.creation_date, r) :=
    fun r => takeBytes_exact _ _ _
      (ljustZero_length _ _ (asciiOkClaimed_le (asciiOk_claimed h2)))
  have e6 : ∀ r : List Nat,
      takeBytes 6 (ljustZero 6 h.creation_time ++ r) =
        .ok (ljustZero 6 h.creation_time, r) :=
    fun r => takeBytes_exact _ _ _
      (ljustZero_length _ _ (asciiOkClaimed_le (asciiOk_claimed h3)))
  have e4 : ∀ r : List Nat,
      takeBytes 4 (uintBytesLE 4 h.total_records ++ r) =
        .ok (uintBytesLE 4 h.total_records, r) :=
    fun r => takeBytes_exact _ _ _ (uintBytesLE_length 4 h.total_records)
  have e10 : ∀ r : List Nat,
      takeBytes 10 (ljustZero 10 h.version ++ r) =
        .ok (ljustZero 10 h.version, r) :=
    fun r => takeBytes_exact _ _ _
      (ljustZero_length _ _ (asciiOkClaimed_le (asciiOk_claimed h5)))
  have e61 : takeBytes 61 (List.replicate 61 (0 : Nat)) =
      .ok (List.replicate 61 0, []) :=
    takeBytes_all _ _ (by simp)
  have ed : checkDisc [RECORD_TYPE_HEADER] RECORD_TYPE_HEADER = .ok () := rfl
  have e1 : ∀ r : List Nat,
      takeBytes 1 ([RECORD_TYPE_HEADER] ++ r) = .ok ([RECORD_TYPE_HEADER], r) :=
    fun r => takeBytes_exact _ _ _ rfl
  simp only [HeaderRecord.parse, headerBytes, List.append_assoc,
             e1, exceptBind_ok, ed,
             e30, e8, e6, e4, e10, e61,
             sjisFieldDecode_roundtrip _ _ h1,
             asciiFieldDecode_roundtrip _ _ h2, asciiFieldDecode_roundtrip _ _ h3,
             asciiFieldDecode_roundtrip _ _ h5,
             decUintLE_uintBytesLE 4 _ h4]

/-- Wire bytes of a Data record whose field encodings all succeed. -/
def dataBytes (d : DataRecord) : List Nat :=
  [RECORD_TYPE_DATA] ++ uintBytesLE 4 d.record_id ++ ljustZero 50 (sjisEncode d.name) ++
  uintBytesLE 4 d.value ++ uintBytesLE 1 d.status ++ ljustZero 14 d.timestamp ++
  ljustZero 40 (sjisEncode d.description) ++ List.replicate 6 0

lemma dataValidClaimed_parts {d : DataRecord} (hv : d.validClaimed) :
    d.record_id < 2 ^ 32 ∧ sjisOkClaimed 50 d.name ∧ d.value < 2 ^ 32 ∧
    (d.status = 0 ∨ d.status = 1) ∧ asciiOkClaimed 14 d.timestamp ∧
    sjisOkClaimed 40 d.description := by
  simp only [DataRecord.validClaimed, Bool.and_eq_true, Bool.or_eq_true,
             decide_eq_true_eq] at hv
  tauto

lemma dataValid_parts {d : DataRecord} (hv : d.valid) :
    d.record_id < 2 ^ 32 ∧ sjisOk 50 d.name ∧ d.value < 2 ^ 32 ∧
    (d.status = 0 ∨ d.status = 1) ∧ asciiOk 14 d.timestamp ∧
    sjisOk 40 d.description := by
  simp only [DataRecord.valid, Bool.and_eq_true, Bool.or_eq_true,
             decide_eq_true_eq] at hv
  tauto

lemma dataValid_claimed {d : DataRecord} (hv : d.valid) :
    d.validClaimed := by
  obtain ⟨h1, h2, h3, h4, h5, h6⟩ := dataValid_parts hv
  simp only [DataRecord.validClaimed, Bool.and_eq_true, Bool.or_eq_true,
             decide_eq_true_eq]
  exact ⟨⟨⟨⟨⟨h1, sjisOk_claimed h2⟩, h3⟩, h4⟩, asciiOk_claimed h5⟩,
         sjisOk_claimed h6⟩

lemma status_lt {v : Nat} (h : v = 0 ∨ v = 1) : v < 256 ^ 1 := by
  rcases h with h | h <;> simp [h]

lemma dataBuild_eq (d : DataRecord) (hv : d.validClaimed) :
    d.build = .ok (dataBytes d) := by
  obtain ⟨h1, h2, h3, h4, h5, h6⟩ := dataValidClaimed_parts hv
  unfold DataRecord.build
  rw [encUintLE_ok 4 _ (lt_pow32 h1), exceptBind_ok, sjisFieldEncode_ok _ _ h2,
      exceptBind_ok, encUintLE_ok 4 _ (lt_pow32 h3), exceptBind_ok,
      encUintLE_ok 1 _ (status_lt h4), exceptBind_ok,
      asciiFieldEncode_ok _ _ h5, exceptBind_ok, sjisFieldEncode_ok _ _ h6,
      exceptBind_ok, dataBytes]

lemma dataBytes_length (d : DataRecord) (hv : d.validClaimed) :
    (dataBytes d).length = 120 := by
  obtain ⟨_, h2, _, _, h5, h6⟩ := dataValidClaimed_parts hv
  simp [dataBytes, ljustZero_length _ _ (sjisOkClaimed_le h2),
        ljustZero_length _ _ (asciiOkClaimed_le h5),
        ljustZero_length _ _ (sjisOkClaimed_le h6), uintBytesLE_length]

lemma dataParse_dataBytes (d : DataRecord) (hv : d.valid) :
    DataRecord.parse (dataBytes d) = .ok d := by
  obtain ⟨h1, h2, h3, h4, h5, h6⟩ := dataValid_parts hv
  have e1 : ∀ r : List Nat,
      takeBytes 1 ([RECORD_TYPE_DATA] ++ r) = .ok ([RECORD_TYPE_DATA], r) :=
    fun r => takeBytes_exact _ _ _ rfl
  have eIdV : ∀ (v : Nat) (r : List Nat),
      takeBytes 4 (uintBytesLE 4 v ++ r) = .ok (uintBytesLE 4 v, r) :=
    fun v r => takeBytes_exact _ _ _ (uintBytesLE_length 4 v)
  have e50 : ∀ r : List Nat,
      takeBytes 50 (ljustZero 50 (sjisEncode d.name) ++ r) =
        .ok (ljustZero 50 (sjisEncode d.name), r) :=
    fun r => takeBytes_exact _ _ _
      (ljustZero_length _ _ (sjisOkClaimed_le (sjisOk_claimed h2)))
  have eSt : ∀ r : List Nat,
      takeBytes 1 (uintBytesLE 1 d.status ++ r) = .ok (uintBytesLE 1 d.status, r) :=
    fun r => takeBytes_exact _ _ _ (uintBytesLE_length 1 d.status)
  have e14 : ∀ r : List Nat,
      takeBytes 14 (ljustZero 14 d.timestamp ++ r) =
        .ok (ljustZero 14 d.timestamp, r) :=
    fun r => takeBytes_exact _ _ _
      (ljustZero_length _ _ (asciiOkClaimed_le (asciiOk_claimed h5)))
  have e40 : ∀ r : List Nat,
      takeBytes 40 (ljustZero 40 (sjisEncode d.description) ++ r) =
        .ok (ljustZero 40 (sjisEncode d.description), r) :=
    fun r => takeBytes_exact _ _ _
      (ljustZero_length _ _ (sjisOkClaimed_le (sjisOk_claimed h6)))
  have e6r : takeBytes 6 (List.replicate 6 (0 : Nat)) = .ok (List.replicate 6 0, []) :=
    takeBytes_all _ _ (by simp)
  have ed : checkDisc [RECORD_TYPE_DATA] RECORD_TYPE_DATA = .ok () := rfl
  simp only [DataRecord.parse, dataBytes, List.append_assoc,
             e1, exceptBind_ok, ed, eIdV, e50, eSt, e14, e40, e6r,
             sjisFieldDecode_roundtrip _ _ h2, sjisFieldDecode_roundtrip _ _ h6,
             asciiFieldDecode_roundtrip _ _ h5,
             decUintLE_uintBytesLE 4 _ (lt_pow32 h1),
             decUintLE_uintBytesLE 4 _ (lt_pow32 h3),
             decUintLE_uintBytesLE 1 _ (status_lt h4)]

/-- Wire bytes of a Trailer record whose field encodings all succeed. -/
def trailerBytes (t : TrailerRecord) : List Nat :=
  [RECORD_TYPE_TRAILER] ++ uintBytesLE 4 t.data_record_count ++
  uintBytesLE 8 t.total_value_sum ++ uintBytesLE 4 t.checksum ++
  List.replicate 103 0

lemma trailerValid_parts {t : TrailerRecord} (hv : t.valid) :
    t.data_record_count < 2 ^ 32 ∧ t.total_value_sum < 2 ^ 64 ∧
    t.checksum < 2 ^ 32 := by
  simp only [TrailerRecord.valid, Bool.and_eq_true, decide_eq_true_eq] at hv
  tauto

lemma trailerBuild_eq (t : TrailerRecord) (hv : t.valid) :
    t.build = .ok (trailerBytes t) := by
  obtain ⟨h1, h2, h3⟩ := trailerValid_parts hv
  unfold TrailerRecord.build
  rw [encUintLE_ok 4 _ (lt_pow32 h1), exceptBind_ok,
      encUintLE_ok 8 _ (lt_pow64 h2), exceptBind_ok,
      encUintLE_ok 4 _ (lt_pow32 h3), exceptBind_ok, trailerBytes]

lemma trailerBytes_length (t : TrailerRecord) : (trailerBytes t).length = 120 := by
  simp [trailerBytes, uintBytesLE_length]

lemma trailerParse_trailerBytes (t : TrailerRecord) (hv : t.valid) :
    TrailerRecord.parse (trailerBytes t) = .ok t := by
  obtain ⟨h1, h2, h3⟩ := trailerValid_parts hv
  have e1 : ∀ r : List Nat,
      takeBytes 1 ([RECORD_TYPE_TRAILER] ++ r) = .ok ([RECORD_TYPE_TRAILER], r) :=
    fun r => takeBytes_exact _ _ _ rfl
  have eu4 : ∀ (v : Nat) (r : List Nat),
      takeBytes 4 (uintBytesLE 4 v ++ r) = .ok (uintBytesLE 4 v, r) :=
    fun v r => takeBytes_exact _ _ _ (uintBytesLE_length 4 v)
  have eu8 : ∀ (v : Nat) (r : List Nat),
      takeBytes 8 (uintBytesLE 8 v ++ r) = .ok (uintBytesLE 8 v, r) :=
    fun v r => takeBytes_exact _ _ _ (uintBytesLE_length 8 v)
  have e103 : takeBytes 103 (List.replicate 103 (0 : Nat)) =
      .ok (List.replicate 103 0, []) :=
    takeBytes_all _ _ (by simp)
  have ed : checkDisc [RECORD_TYPE_TRAILER] RECORD_TYPE_TRAILER = .ok () := rfl
  simp only [TrailerRecord.parse, trailerBytes, List.append_assoc,
             e1, exceptBind_ok, ed, eu4, eu8, e103,
             decUintLE_uintBytesLE 4 _ (lt_pow32 h1),
             decUintLE_uintBytesLE 8 _ (lt_pow64 h2),
             decUintLE_uintBytesLE 4 _ (lt_pow32 h3)]

/-! Dispatch-level lemmas: parse_record applied to a built frame. -/

/-- Wire bytes of a record of any kind whose field encodings all succeed. -/
def recordBytes : ParsedRecord → List Nat
  | .header h => headerBytes h
  | .data d => dataBytes d
  | .trailer t => trailerBytes t

lemma ParsedRecord.valid_header {h : HeaderRecord}
    (hv : (ParsedRecord.header h).valid) : h.valid := hv

lemma ParsedRecord.valid_data {d : DataRecord}
    (hv : (ParsedRecord.data d).valid) : d.valid := hv

lemma ParsedRecord.valid_trailer {t : TrailerRecord}
    (hv : (ParsedRecord.trailer t).valid) : t.valid := hv

lemma buildRecord_eq (r : ParsedRecord) (hv : r.valid) :
    buildRecord r = .ok (recordBytes r) := by
  cases r with
  | header h => exact headerBuild_eq h (headerValid_claimed hv)
  | data d => exact dataBuild_eq d (dataValid_claimed hv)
  | trailer t => exact trailerBuild_eq t hv

lemma recordBytes_length (r : ParsedRecord) (hv : r.valid) :
    (recordBytes r).length = 120 := by
  cases r with
  | header h => exact headerBytes_length h (headerValid_claimed hv)
  | data d => exact dataBytes_length d (dataValid_claimed hv)
  | trailer t => exact trailerBytes_length t

lemma parse_record_headerBytes (h : HeaderRecord) (hv : h.valid) :
    parse_record (headerBytes h) = .ok (.header h) := by
  have hl : (headerBytes h).length = 120 :=
    headerBytes_length h (headerValid_claimed hv)
  have hd : detect_record_type (headerBytes h) = some 1 := by
    unfold detect_record_type
    rw [if_neg (by rw [hl]; norm_num)]
    simp [headerBytes, RECORD_TYPE_HEADER]
  unfold parse_record
  rw [if_neg (by rw [hl]; simp [RECORD_SIZE]), hd,
      headerParse_headerBytes h hv]
  rfl

lemma parse_record_dataBytes (d : DataRecord) (hv : d.valid) :
    parse_record (dataBytes d) = .ok (.data d) := by
  have hl : (dataBytes d).length = 120 :=
    dataBytes_length d (dataValid_claimed hv)
  have hd : detect_record_type (dataBytes d) = some 2 := by
    unfold detect_record_type
    rw [if_neg (by rw [hl]; norm_num)]
    simp [dataBytes, RECORD_TYPE_DATA]
  unfold parse_record
  rw [if_neg (by rw [hl]; simp [RECORD_SIZE]), hd,
      dataParse_dataBytes d hv]
  rfl

lemma parse_record_trailerBytes (t : TrailerRecord) (hv : t.valid) :
    parse_record (trailerBytes t) = .ok (.trailer t) := by
  have hl : (trailerBytes t).length = 120 := trailerBytes_length t
  have hd : detect_record_type (trailerBytes t) = some 8 := by
    unfold detect_record_type
    rw [if_neg (by rw [hl]; norm_num)]
    simp [trailerBytes, RECORD_TYPE_TRAILER]
  unfold parse_record
  rw [if_neg (by rw [hl]; simp [RECORD_SIZE]), hd,
      trailerParse_trailerBytes t hv]
  rfl

lemma parse_record_recordBytes (r : ParsedRecord) (hv : r.valid) :
    parse_record (recordBytes r) = .ok r := by
  cases r with
  | header h => exact parse_record_headerBytes h hv
  | data d => exact parse_record_dataBytes d hv
  | trailer t => exact parse_record_trailerBytes t hv

/-! Stream-level lemmas. -/

/-- Concatenation of a list of frames into one byte source. -/
def concatFrames : List (List Nat) → List Nat
  | [] => []
  | f :: fs => f ++ concatFrames fs

/-- The expected output items: records in order, numbered from `num`. -/
def tagFrom (num : Nat) : List ParsedRecord → List StreamItem
  | [] => []
  | r :: rs => ⟨num, kindTag r, r⟩ :: tagFrom (num + 1) rs

lemma tagFrom_length (num : Nat) (rs : List ParsedRecord) :
    (tagFrom num rs).length = rs.length := by
  induction rs generalizing num with
  | nil => rfl
  | cons r rs ih => simp [tagFrom, ih]

lemma parseStreamAux_nil (num : Nat) : parseStreamAux [] num = ([], .done) := by
  rw [parseStreamAux]
  simp

lemma parseStreamAux_short (bs : List Nat) (num : Nat) (h0 : bs ≠ [])
    (h1 : bs.length < 120) : parseStreamAux bs num = ([], .truncated) := by
  rw [parseStreamAux]
  rw [if_neg (by simp [h0])]
  rw [dif_pos (by simp [RECORD_SIZE]; omega)]

lemma parseStreamAux_frame (frame rest : List Nat) (num : Nat)
    (hlen : frame.length = 120) (r : ParsedRecord)
    (hp : parse_record frame = .ok r) :
    parseStreamAux (frame ++ rest) num =
      (⟨num, kindTag r, r⟩ :: (parseStreamAux rest (num + 1)).1,
       (parseStreamAux rest (num + 1)).2) := by
  have hne : (frame ++ rest) ≠ [] := by
    intro hcontra
    have := congrArg List.length hcontra
    simp [hlen] at this
  have hge : ¬ (frame ++ rest).length < RECORD_SIZE := by
    simp [RECORD_SIZE, hlen]
  have htake : (frame ++ rest).take RECORD_SIZE = frame := by
    have : (frame ++ rest).take frame.length = frame := List.take_left frame rest
    rwa [hlen] at this
  have hdrop : (frame ++ rest).drop RECORD_SIZE = rest := by
    have : (frame ++ rest).drop frame.length = rest := List.drop_left frame rest
    rwa [hlen] at this
  rw [parseStreamAux]
  rw [if_neg (by simp [hne])]
  rw [dif_neg hge]
  rw [htake, hp, hdrop]

lemma parseStreamAux_frames (ps : List (List Nat × ParsedRecord))
    (hps : ∀ p ∈ ps, p.1.length = 120 ∧ parse_record p.1 = .ok p.2) :
    ∀ (num : Nat) (suffix : List Nat),
      parseStreamAux (concatFrames (ps.map Prod.fst) ++ suffix) num =
        (tagFrom num (ps.map Prod.snd) ++ (parseStreamAux suffix (num + ps.length)).1,
         (parseStreamAux suffix (num + ps.length)).2) := by
  induction ps with
  | nil => intro num suffix; simp [concatFrames, tagFrom]
  | cons p ps ih =>
    intro num suffix
    obtain ⟨hlen, hp⟩ := hps p (by simp)
    have ih' := ih (fun q hq => hps q (by simp [hq]))
    simp only [List.map_cons, concatFrames, List.append_assoc]
    rw [parseStreamAux_frame p.1 _ num hlen p.2 hp, ih' (num + 1) suffix]
    simp only [tagFrom, List.cons_append, List.length_cons]
    rw [show num + (ps.length + 1) = num + 1 + ps.length from by omega]

lemma concatFrames_length_all (bss : List (List Nat))
    (h : ∀ b ∈ bss, b.length = 120) :
    (concatFrames bss).length = 120 * bss.length := by
  induction bss with
  | nil => simp [concatFrames]
  | cons b bs ih =>
    simp only [concatFrames, List.length_append, List.length_cons,
               h b (by simp), ih (fun x hx => h x (by simp [hx]))]
    ring

/-! Inversion lemmas: what a successful field build implies, with no validity
hypothesis. -/

@[simp] lemma exceptBind_error {ε α β : Type} (e : ε) (f : α → Except ε β) :
    (Bind.bind (Except.error e : Except ε α) f) = .error e := rfl

lemma sjisFieldEncode_ok_inv {cap : Nat} {s : List SJChar} {b : List Nat}
    (h : sjisFieldEncode cap s = .ok b) :
    b = ljustZero cap (sjisEncode s) ∧ (sjisEncode s).length ≤ cap := by
  unfold sjisFieldEncode at h
  split_ifs at h with h1 h2
  cases h
  exact ⟨rfl, Nat.le_of_not_lt h2⟩

lemma asciiFieldEncode_ok_inv {width : Nat} {s : List Nat} {b : List Nat}
    (h : asciiFieldEncode width s = .ok b) :
    b = ljustZero width s ∧ s.length ≤ width := by
  unfold asciiFieldEncode at h
  split_ifs at h with h1 h2
  cases h
  exact ⟨rfl, Nat.le_of_not_lt h2⟩

lemma encUintLE_ok_inv {w v : Nat} {b : List Nat} (h : encUintLE w v = .ok b) :
    b = uintBytesLE w v := by
  unfold encUintLE at h
  split_ifs at h
  cases h
  rfl

lemma headerBuild_ok_inv {h : HeaderRecord} {bs : List Nat}
    (hb : h.build = .ok bs) :
    bs.length = 120 ∧ bs.drop 59 = List.replicate 61 0 := by
  unfold HeaderRecord.build at hb
  cases hfn : sjisFieldEncode 30 h.file_name with
  | error e => rw [hfn, exceptBind_error] at hb; cases hb
  | ok fn =>
  rw [hfn, exceptBind_ok] at hb
  cases hcd : asciiFieldEncode 8 h.creation_date with
  | error e => rw [hcd, exceptBind_error] at hb; cases hb
  | ok cd =>
  rw [hcd, exceptBind_ok] at hb
  cases hct : asciiFieldEncode 6 h.creation_time with
  | error e => rw [hct, exceptBind_error] at hb; cases hb
  | ok ct =>
  rw [hct, exceptBind_ok] at hb
  cases htr : encUintLE 4 h.total_records with
  | error e => rw [htr, exceptBind_error] at hb; cases hb
  | ok tr =>
  rw [htr, exceptBind_ok] at hb
  cases hv : asciiFieldEncode 10 h.version with
  | error e => rw [hv, exceptBind_error] at hb; cases hb
  | ok v =>
  rw [hv, exceptBind_ok] at hb
  cases hb
  obtain ⟨hfe, hfl⟩ := sjisFieldEncode_ok_inv hfn
  obtain ⟨hce, hcl⟩ := asciiFieldEncode_ok_inv hcd
  obtain ⟨hte, htl⟩ := asciiFieldEncode_ok_inv hct
  have htr' := encUintLE_ok_inv htr
  obtain ⟨hve, hvl⟩ := asciiFieldEncode_ok_inv hv
  have lfn : fn.length = 30 := by rw [hfe]; exact ljustZero_length _ _ hfl
  have lcd : cd.length = 8 := by rw [hce]; exact ljustZero_length _ _ hcl
  have lct : ct.length = 6 := by rw [hte]; exact ljustZero_length _ _ htl
  have ltr : tr.length = 4 := by rw [htr']; exact uintBytesLE_length 4 _
  have lv : v.length = 10 := by rw [hve]; exact ljustZero_length _ _ hvl
  have hP : ([RECORD_TYPE_HEADER] ++ fn ++ cd ++ ct ++ tr ++ v).length = 59 := by
    simp [lfn, lcd, lct, ltr, lv]
  constructor
  · simp [lfn, lcd, lct, ltr, lv]
  · rw [show (59 : Nat) = ([RECORD_TYPE_HEADER] ++ fn ++ cd ++ ct ++ tr ++ v).length
          from hP.symm]
    exact List.drop_left _ _

lemma dataBuild_ok_inv {d : DataRecord} {bs : List Nat}
    (hb : d.build = .ok bs) :
    bs.length = 120 ∧ bs.drop 114 = List.replicate 6 0 := by
  unfold DataRecord.build at hb
  cases hri : encUintLE 4 d.record_id with
  | error e => rw [hri, exceptBind_error] at hb; cases hb
  | ok rid =>
  rw [hri, exceptBind_ok] at hb
  cases hnm : sjisFieldEncode 50 d.name with
  | error e => rw [hnm, exceptBind_error] at hb; cases hb
  | ok nm =>
  rw [hnm, exceptBind_ok] at hb
  cases hvl : encUintLE 4 d.value with
  | error e => rw [hvl, exceptBind_error] at hb; cases hb
  | ok vl =>
  rw [hvl, exceptBind_ok] at hb
  cases hst : encUintLE 1 d.status with
  | error e => rw [hst, exceptBind_error] at hb; cases hb
  | ok st =>
  rw [hst, exceptBind_ok] at hb
  cases hts : asciiFieldEncode 14 d.timestamp with
  | error e => rw [hts, exceptBind_error] at hb; cases hb
  | ok ts =>
  rw [hts, exceptBind_ok] at hb
  cases hds : sjisFieldEncode 40 d.description with
  | error e => rw [hds, exceptBind_error] at hb; cases hb
  | ok ds =>
  rw [hds, exceptBind_ok] at hb
  cases hb
  obtain ⟨hne, hnl⟩ := sjisFieldEncode_ok_inv hnm
  obtain ⟨hte, htl⟩ := asciiFieldEncode_ok_inv hts
  obtain ⟨hde, hdl⟩ := sjisFieldEncode_ok_inv hds
  have hri' := encUintLE_ok_inv hri
  have hvl' := encUintLE_ok_inv hvl
  have hst' := encUintLE_ok_inv hst
  have lri : rid.length = 4 := by rw [hri']; exact uintBytesLE_length 4 _
  have lnm : nm.length = 50 := by rw [hne]; exact ljustZero_length _ _ hnl
  have lvl : vl.length = 4 := by rw [hvl']; exact uintBytesLE_length 4 _
  have lst : st.length = 1 := by rw [hst']; exact uintBytesLE_length 1 _
  have lts : ts.length = 14 := by rw [hte]; exact ljustZero_length _ _ htl
  have lds : ds.length = 40 := by rw [hde]; exact ljustZero_length _ _ hdl
  have hP : ([RECORD_TYPE_DATA] ++ rid ++ nm ++ vl ++ st ++ ts ++ ds).length = 114 := by
    simp [lri, lnm, lvl, lst, lts, lds]
  constructor
  · simp [lri, lnm, lvl, lst, lts, lds]
  · rw [show (114 : Nat) =
          ([RECORD_TYPE_DATA] ++ rid ++ nm ++ vl ++ st ++ ts ++ ds).length
          from hP.symm]
    exact List.drop_left _ _

lemma trailerBuild_ok_inv {t : TrailerRecord} {bs : List Nat}
    (hb : t.build = .ok bs) :
    bs.length = 120 ∧ bs.drop 17 = List.replicate 103 0 := by
  unfold TrailerRecord.build at hb
  cases hdc : encUintLE 4 t.data_record_count with
  | error e => rw [hdc, exceptBind_error] at hb; cases hb
  | ok dc =>
  rw [hdc, exceptBind_ok] at hb
  cases htv : encUintLE 8 t.total_value_sum with
  | error e => rw [htv, exceptBind_error] at hb; cases hb
  | ok tv =>
  rw [htv, exceptBind_ok] at hb
  cases hck : encUintLE 4 t.checksum with
  | error e => rw [hck, exceptBind_error] at hb; cases hb
  | ok ck =>
  rw [hck, exceptBind_ok] at hb
  cases hb
  have hdc' := encUintLE_ok_inv hdc
  have htv' := encUintLE_ok_inv htv
  have hck' := encUintLE_ok_inv hck
  have ldc : dc.length = 4 := by rw [hdc']; exact uintBytesLE_length 4 _
  have ltv : tv.length = 8 := by rw [htv']; exact uintBytesLE_length 8 _
  have lck : ck.length = 4 := by rw [hck']; exact uintBytesLE_length 4 _
  have hP : ([RECORD_TYPE_TRAILER] ++ dc ++ tv ++ ck).length = 17 := by
    simp [ldc, ltv, lck]
  constructor
  · simp [ldc, ltv, lck]
  · rw [show (17 : Nat) = ([RECORD_TYPE_TRAILER] ++ dc ++ tv ++ ck).length
          from hP.symm]
    exact List.drop_left _ _

/-! Lemmas for the totality/drop behaviour of the ignore-mode decoder. -/

theorem sjisEncode_decode_sublist :
    ∀ bs : List Nat, List.Sublist (sjisEncode (sjisDecodeIgnore bs)) bs
  | [] => by simp [sjisDecodeIgnore, sjisEncode]
  | [b] => by
    by_cases h : isSingleByte b
    · simp [sjisDecodeIgnore, h, sjisEncode, SJChar.bytes]
    · simp [sjisDecodeIgnore, h, sjisEncode]
  | b :: b2 :: rest => by
    by_cases h1 : isSingleByte b
    · have ih := sjisEncode_decode_sublist (b2 :: rest)
      simp only [sjisDecodeIgnore, if_pos h1, sjisEncode, SJChar.bytes,
                 List.cons_append, List.nil_append]
      exact List.Sublist.cons₂ _ ih
    · by_cases h2 : isLeadByte b
      · by_cases h3 : isTrailByte b2
        · have ih := sjisEncode_decode_sublist rest
          simp only [sjisDecodeIgnore, if_neg h1, if_pos h2, if_pos h3,
                     sjisEncode, SJChar.bytes, List.cons_append, List.nil_append]
          exact List.Sublist.cons₂ _ (List.Sublist.cons₂ _ ih)
        · have ih := sjisEncode_decode_sublist (b2 :: rest)
          simp only [sjisDecodeIgnore, if_neg h1, if_pos h2, if_neg h3]
          exact List.Sublist.cons _ ih
      · have ih := sjisEncode_decode_sublist (b2 :: rest)
        simp only [sjisDecodeIgnore, if_neg h1, if_neg h2]
        exact List.Sublist.cons _ ih

lemma rstripZeros_sublist (l : List Nat) : List.Sublist (rstripZeros l) l := by
  have h := List.dropWhile_sublist (l := l.reverse) (fun b => b == 0)
  have h2 := List.Sublist.reverse h
  rwa [List.reverse_reverse] at h2

/-! Lemmas about trailing NUL characters (for the round-trip failure). -/

/-- The string with its trailing NUL characters removed. -/
def dropTrailingNuls (s : List SJChar) : List SJChar :=
  (s.reverse.dropWhile (fun c => c == SJChar.single 0)).reverse

lemma sjisEncode_append (a b : List SJChar) :
    sjisEncode (a ++ b) = sjisEncode a ++ sjisEncode b := by
  induction a with
  | nil => simp [sjisEncode]
  | cons c cs ih => simp [sjisEncode, ih, List.append_assoc]

lemma charBytes_getLast_ne (c : SJChar) (hv : c.valid) (hne : c ≠ .single 0) :
    c.bytes.getLast? ≠ some 0 := by
  cases c with
  | single b =>
    simp only [SJChar.bytes, List.getLast?_singleton, ne_eq, Option.some.injEq]
    intro hb0
    exact hne (by rw [hb0])
  | double b1 b2 =>
    simp only [SJChar.valid, Bool.and_eq_true, isTrailByte, Bool.or_eq_true,
               decide_eq_true_eq] at hv
    simp only [SJChar.bytes, ne_eq]
    have : b2 ≠ 0 := by omega
    simp [List.getLast?, this]

lemma charBytes_ne_nil (c : SJChar) : c.bytes ≠ [] := by
  cases c <;> simp [SJChar.bytes]

lemma dropTrailingNuls_append_nul (s : List SJChar) :
    dropTrailingNuls (s ++ [.single 0]) = dropTrailingNuls s := by
  unfold dropTrailingNuls
  rw [List.reverse_append]
  simp [List.dropWhile_cons]

lemma dropTrailingNuls_append_ne (s : List SJChar) (c : SJChar)
    (hne : c ≠ .single 0) :
    dropTrailingNuls (s ++ [c]) = s ++ [c] := by
  unfold dropTrailingNuls
  rw [List.reverse_append]
  simp only [List.reverse_cons, List.reverse_nil, List.nil_append,
             List.singleton_append, List.dropWhile_cons]
  have : (c == SJChar.single 0) = false := by simp [hne]
  rw [this]
  simp

lemma rstrip_sjisEncode (s : List SJChar) (hv : s.all SJChar.valid) :
    rstripZeros (sjisEncode s) = sjisEncode (dropTrailingNuls s) := by
  induction s using List.reverseRecOn with
  | nil => simp [sjisEncode, rstripZeros, dropTrailingNuls]
  | append_singleton s' c ih =>
    have hv' : s'.all SJChar.valid := by
      simp only [List.all_append, Bool.and_eq_true] at hv
      exact hv.1
    have hvc : c.valid := by
      simp only [List.all_append, List.all_cons, List.all_nil,
                 Bool.and_eq_true] at hv
      exact hv.2.1
    by_cases hc : c = SJChar.single 0
    · subst hc
      rw [sjisEncode_append]
      have henc : sjisEncode [SJChar.single 0] = List.replicate 1 0 := rfl
      rw [henc, rstripZeros_pad, ih hv', dropTrailingNuls_append_nul]
    · have hlast : (sjisEncode (s' ++ [c])).getLast? ≠ some 0 := by
        rw [sjisEncode_append]
        have hb : sjisEncode [c] = c.bytes := by simp [sjisEncode]
        rw [hb, List.getLast?_append_of_ne_nil _ (charBytes_ne_nil c)]
        exact charBytes_getLast_ne c hvc hc
      rw [rstripZeros_eq_self _ hlast, dropTrailingNuls_append_ne s' c hc]

lemma length_dropTrailingNuls_le (s : List SJChar) :
    (dropTrailingNuls s).length ≤ s.length := by
  unfold dropTrailingNuls
  rw [List.length_reverse]
  calc (s.reverse.dropWhile (fun c => c == SJChar.single 0)).length
      ≤ s.reverse.length := (List.dropWhile_sublist _).length_le
  _ = s.length := List.length_reverse s

lemma dropTrailingNuls_ne (s : List SJChar)
    (h : s.getLast? = some (.single 0)) : dropTrailingNuls s ≠ s := by
  rw [← List.head?_reverse] at h
  intro heq
  cases hr : s.reverse with
  | nil => rw [hr] at h; cases h
  | cons c t =>
    rw [hr] at h
    have hc : c = SJChar.single 0 := by
      simp only [List.head?, Option.some.injEq] at h
      exact h
    have hlen : (dropTrailingNuls s).length ≤ t.length := by
      unfold dropTrailingNuls
      rw [List.length_reverse, hr, hc]
      rw [List.dropWhile_cons]
      simp only [beq_self_eq_true, if_pos]
      exact (List.dropWhile_sublist _).length_le
    have hslen : s.length = t.length + 1 := by
      rw [← List.length_reverse s, hr]
      simp
    rw [heq] at hlen
    omega

lemma head_dropWhile_false {α : Type} (p : α → Bool) :
    ∀ (l : List α) (c : α) (t : List α), l.dropWhile p = c :: t → p c = false := by
  intro l
  induction l with
  | nil => intro c t h; cases h
  | cons x xs ih =>
    intro c t h
    rw [List.dropWhile_cons] at h
    by_cases hx : p x
    · rw [if_pos hx] at h
      exact ih c t h
    · rw [if_neg hx] at h
      cases h
      exact Bool.not_eq_true _ ▸ (by simpa using hx)

lemma dropTrailingNuls_getLast (s : List SJChar) :
    (dropTrailingNuls s).getLast? ≠ some (.single 0) := by
  unfold dropTrailingNuls
  rw [← List.head?_reverse, List.reverse_reverse]
  cases hd : s.reverse.dropWhile (fun c => c == SJChar.single 0) with
  | nil => simp
  | cons c t =>
    have hp := head_dropWhile_false _ _ _ _ hd
    simp only [List.head?, ne_eq, Option.some.injEq]
    intro hc
    rw [hc] at hp
    simp at hp

lemma dropTrailingNuls_sublist (s : List SJChar) :
    List.Sublist (dropTrailingNuls s) s := by
  have h := List.dropWhile_sublist (l := s.reverse) (fun c => c == SJChar.single 0)
  have h2 := List.Sublist.reverse h
  rwa [List.reverse_reverse] at h2

lemma dropTrailingNuls_all_valid (s : List SJChar) (h : s.all SJChar.valid) :
    (dropTrailingNuls s).all SJChar.valid := by
  rw [List.all_eq_true] at h ⊢
  exact fun c hc => h c ((dropTrailingNuls_sublist s).subset hc)

lemma concatFrames_append (a b : List (List Nat)) :
    concatFrames (a ++ b) = concatFrames a ++ concatFrames b := by
  induction a with
  | nil => simp [concatFrames]
  | cons f fs ih => simp [concatFrames, ih, List.append_assoc]

lemma parse_stream_validRecords (rs : List ParsedRecord)
    (hv : ∀ r ∈ rs, r.valid) :
    ∀ (num : Nat) (suffix : List Nat),
      parseStreamAux (concatFrames (rs.map recordBytes) ++ suffix) num =
        (tagFrom num rs ++ (parseStreamAux suffix (num + rs.length)).1,
         (parseStreamAux suffix (num + rs.length)).2) := by
  induction rs with
  | nil => intro num suffix; simp [concatFrames, tagFrom]
  | cons r rs ih =>
    intro num suffix
    have hvr : r.valid := hv r (by simp)
    have ih' := ih (fun x hx => hv x (by simp [hx]))
    simp only [List.map_cons, concatFrames, List.append_assoc]
    rw [parseStreamAux_frame _ _ num (recordBytes_length r hvr) r
          (parse_record_recordBytes r hvr), ih' (num + 1) suffix]
    simp only [tagFrom, List.cons_append, List.length_cons]
    rw [show num + (rs.length + 1) = num + 1 + rs.length from by omega]

lemma forall2_dataBytes (ds : List DataRecord) (dbss : List (List Nat))
    (hv : ∀ d ∈ ds, d.valid)
    (h : List.Forall₂ (fun d bs => d.build = .ok bs) ds dbss) :
    dbss = ds.map dataBytes := by
  induction ds generalizing dbss with
  | nil => cases h; rfl
  | cons d ds ih =>
    cases h with
    | cons hd htl =>
      have hb := dataBuild_eq d (dataValid_claimed (hv d (by simp)))
      rw [hd] at hb
      injection hb with hb'
      simp only [List.map_cons]
      rw [← hb', ih _ (fun x hx => hv x (by simp [hx])) htl]

lemma forall2_recordBytes (rs : List ParsedRecord) (bss : List (List Nat))
    (hv : ∀ r ∈ rs, r.valid)
    (h : List.Forall₂ (fun r bs => buildRecord r = .ok bs) rs bss) :
    bss = rs.map recordBytes := by
  induction rs generalizing bss with
  | nil => cases h; rfl
  | cons r rs ih =>
    cases h with
    | cons hd htl =>
      have hb := buildRecord_eq r (hv r (by simp))
      rw [hd] at hb
      injection hb with hb'
      simp only [List.map_cons]
      rw [← hb', ih _ (fun x hx => hv x (by simp [hx])) htl]

lemma concatFrames_records (h : HeaderRecord) (ds : List DataRecord)
    (t : TrailerRecord) :
    concatFrames ((ParsedRecord.header h ::
        (ds.map ParsedRecord.data ++ [ParsedRecord.trailer t])).map recordBytes) =
      headerBytes h ++ (concatFrames (ds.map dataBytes) ++ trailerBytes t) := by
  simp only [List.map_cons, concatFrames, List.map_append, List.map_map]
  rw [concatFrames_append]
  simp only [concatFrames, List.append_nil]
  have : List.map (recordBytes ∘ ParsedRecord.data) ds = List.map dataBytes ds :=
    List.map_congr_left (fun d _ => rfl)
  rw [this]
  rfl

/-! Concrete sample values used by the claim witnesses. -/

/-- The Data record of the spec's concrete scenario: record_id 1, name
"田中太郎" (shift_jis 93 63, 92 86, 91 BE, 98 59), value 1000, status 1,
timestamp "20240101120000" (ASCII), description "通常処理" (shift_jis 92 CA,
8F ED, 8F 88, 97 9D). -/
def dSample : DataRecord :=
  { record_id := 1,
    name := [.double 147 99, .double 146 134, .double 145 190, .double 152 89],
    value := 1000, status := 1,
    timestamp := [50, 48, 50, 52, 48, 49, 48, 49, 49, 50, 48, 48, 48, 48],
    description := [.double 146 202, .double 143 237, .double 143 136, .double 151 157] }

/-- A sample Header: file_name "a", creation_date "20240101", creation_time
"120000", total_records 3, version "1.0". -/
def hSample : HeaderRecord :=
  { file_name := [.single 97],
    creation_date := [50, 48, 50, 52, 48, 49, 48, 49],
    creation_time := [49, 50, 48, 48, 48, 48],
    total_records := 3,
    version := [49, 46, 48] }

/-- A sample Trailer. -/
def tSample : TrailerRecord :=
  { data_record_count := 1, total_value_sum := 1000, checksum := 1 }

/-- A Data record that satisfies the spec's stated validity but whose name
ends in a NUL character. -/
def cexData : DataRecord :=
  { record_id := 1, name := [.single 0], value := 0, status := 1,
    timestamp := [], description := [] }

/-! Claim theorems. -/

/-- C1 (counterexample): the round-trip claim fails as stated.  The Data
record with name "\x00" satisfies every validity condition the spec states
(text within capacity, ASCII within width, status in {0,1}), encodes
successfully, yet decoding its 120-byte encoding does not return the record:
the decoder strips the trailing NUL of the name field. -/
theorem c1_roundtrip_counterexample :
    cexData.validClaimed = true ∧
    DataRecord.build cexData = .ok (dataBytes cexData) ∧
    parse_record (dataBytes cexData) ≠ .ok (.data cexData) := by
  decide

/-- C1 (amended): for every valid logical record value of any of the three
kinds — text fields legacy-encoding within capacity, ASCII fields within
width, status in {0,1}, integers within their wire width, and additionally no
text or ASCII field ending in a NUL character — encoding succeeds and
decoding the 120-byte result yields the value back, field by field. -/
theorem c1_roundtrip_amended (r : ParsedRecord) (hv : r.valid) :
    buildRecord r = .ok (recordBytes r) ∧
    parse_record (recordBytes r) = .ok r :=
  ⟨buildRecord_eq r hv, parse_record_recordBytes r hv⟩

theorem c1_roundtrip_witness :
    (ParsedRecord.data dSample).valid = true ∧
    (buildRecord (.data dSample) = .ok (recordBytes (.data dSample)) ∧
     parse_record (recordBytes (.data dSample)) = .ok (.data dSample)) :=
  ⟨by decide, c1_roundtrip_amended (.data dSample) (by decide)⟩

/-- C2: every record that encodes successfully encodes to exactly 120 bytes,
with the reserved tail (61/6/103 bytes for Header/Data/Trailer) zero-filled. -/
theorem c2_fixed_length :
    (∀ (h : HeaderRecord) (bs : List Nat), h.build = .ok bs →
        bs.length = 120 ∧ bs.drop 59 = List.replicate 61 0) ∧
    (∀ (d : DataRecord) (bs : List Nat), d.build = .ok bs →
        bs.length = 120 ∧ bs.drop 114 = List.replicate 6 0) ∧
    (∀ (t : TrailerRecord) (bs : List Nat), t.build = .ok bs →
        bs.length = 120 ∧ bs.drop 17 = List.replicate 103 0) :=
  ⟨fun _ _ hb => headerBuild_ok_inv hb,
   fun _ _ hb => dataBuild_ok_inv hb,
   fun _ _ hb => trailerBuild_ok_inv hb⟩

theorem c2_fixed_length_witness :
    (dataBytes dSample).length = 120 ∧
    (dataBytes dSample).drop 114 = List.replicate 6 0 :=
  c2_fixed_length.2.1 dSample (dataBytes dSample) (by decide)

/-- C3: decoding a 120-byte frame whose first byte is 2 with the Header codec
fails with the mismatched-discriminant error, and dispatching a 120-byte frame
whose first byte is 5 fails with the unknown-discriminant error. -/
theorem c3_discriminant_enforcement :
    HeaderRecord.parse (2 :: List.replicate 119 0) =
      .error .mismatchedDiscriminant ∧
    parse_record (5 :: List.replicate 119 0) = .error .unknownDiscriminant := by
  decide

/-- C4: for every N ≥ 0, the frame reader applied to the concatenation of one
encoded Header, N encoded Data records and one encoded Trailer produces
exactly N+2 records, in source order, tagged with 1-based positions, ending
in the clean Done state. -/
theorem c4_stream_composition (h : HeaderRecord) (ds : List DataRecord)
    (t : TrailerRecord) (hbs tbs : List Nat) (dbss : List (List Nat))
    (hh : h.valid) (hds : ∀ d ∈ ds, d.valid) (ht : t.valid)
    (hb : h.build = .ok hbs)
    (hdb : List.Forall₂ (fun d bs => d.build = .ok bs) ds dbss)
    (htb : t.build = .ok tbs) :
    parse_stream (hbs ++ (concatFrames dbss ++ tbs)) =
      (tagFrom 1 (ParsedRecord.header h ::
          (ds.map ParsedRecord.data ++ [ParsedRecord.trailer t])), .done) ∧
    (parse_stream (hbs ++ (concatFrames dbss ++ tbs))).1.length =
      ds.length + 2 := by
  have hbs_eq : hbs = headerBytes h := by
    have hbe := headerBuild_eq h (headerValid_claimed hh)
    rw [hb] at hbe
    simpa using hbe
  have htbs_eq : tbs = trailerBytes t := by
    have hte := trailerBuild_eq t ht
    rw [htb] at hte
    simpa using hte
  have hdbss_eq : dbss = ds.map dataBytes := forall2_dataBytes ds dbss hds hdb
  subst hbs_eq
  subst htbs_eq
  subst hdbss_eq
  have hvr : ∀ r ∈ (ParsedRecord.header h ::
      (ds.map ParsedRecord.data ++ [ParsedRecord.trailer t])), r.valid := by
    intro r hr
    rcases List.mem_cons.mp hr with rfl | hr'
    · exact hh
    rcases List.mem_append.mp hr' with hr'' | hr''
    · obtain ⟨d, hd, rfl⟩ := List.mem_map.mp hr''
      exact hds d hd
    · rw [List.mem_singleton] at hr''
      subst hr''
      exact ht
  have hinput : headerBytes h ++ (concatFrames (ds.map dataBytes) ++ trailerBytes t)
      = concatFrames ((ParsedRecord.header h ::
          (ds.map ParsedRecord.data ++ [ParsedRecord.trailer t])).map recordBytes)
        ++ [] := by
    rw [List.append_nil, concatFrames_records]
  constructor
  · rw [parse_stream, hinput, parse_stream_validRecords _ hvr 1 [],
        parseStreamAux_nil]
    simp
  · rw [parse_stream, hinput, parse_stream_validRecords _ hvr 1 [],
        parseStreamAux_nil]
    simp [tagFrom_length]

theorem c4_stream_composition_witness :
    parse_stream (headerBytes hSample ++
        (concatFrames [dataBytes dSample] ++ trailerBytes tSample)) =
      (tagFrom 1 (ParsedRecord.header hSample ::
          ([dSample].map ParsedRecord.data ++ [ParsedRecord.trailer tSample])),
       .done) ∧
    (parse_stream (headerBytes hSample ++
        (concatFrames [dataBytes dSample] ++ trailerBytes tSample))).1.length =
      ([dSample] : List DataRecord).length + 2 :=
  c4_stream_composition hSample [dSample] tSample
    (headerBytes hSample) (trailerBytes tSample) [dataBytes dSample]
    (by decide) (by decide) (by decide) (by decide)
    (List.Forall₂.cons (by decide) List.Forall₂.nil) (by decide)

/-- C5: a byte source consisting of valid encoded frames followed by a short
final fragment of 119 bytes yields the decoded records of the full frames
plus the Truncated terminal signal; the partial frame is not decoded, and the
whole source has length 120*(N+2) - 1 when there are N+1 full frames. -/
theorem c5_truncation (rs : List ParsedRecord) (bss : List (List Nat))
    (tail : List Nat)
    (hv : ∀ r ∈ rs, r.valid)
    (hb : List.Forall₂ (fun r bs => buildRecord r = .ok bs) rs bss)
    (htail : tail.length = 119) :
    parse_stream (concatFrames bss ++ tail) = (tagFrom 1 rs, .truncated) ∧
    (concatFrames bss ++ tail).length = 120 * rs.length + 119 := by
  have hbss : bss = rs.map recordBytes := forall2_recordBytes rs bss hv hb
  subst hbss
  have htne : tail ≠ [] := by
    intro hc
    rw [hc] at htail
    cases htail
  constructor
  · rw [parse_stream, parse_stream_validRecords rs hv 1 tail,
        parseStreamAux_short tail _ htne (by omega)]
    simp
  · rw [List.length_append,
        concatFrames_length_all _ (fun b hbm => by
          obtain ⟨r, hr, rfl⟩ := List.mem_map.mp hbm
          exact recordBytes_length r (hv r hr)),
        htail, List.length_map]

theorem c5_truncation_witness :
    parse_stream (concatFrames [dataBytes dSample] ++ List.replicate 119 7) =
      (tagFrom 1 [ParsedRecord.data dSample], .truncated) ∧
    (concatFrames [dataBytes dSample] ++ List.replicate 119 7).length =
      120 * ([ParsedRecord.data dSample] : List ParsedRecord).length + 119 :=
  c5_truncation [ParsedRecord.data dSample] [dataBytes dSample]
    (List.replicate 119 7) (by decide)
    (List.Forall₂.cons (by decide) List.Forall₂.nil) (by decide)

/-- C6: encoding a text field whose legacy (shift_jis) byte length exceeds
the declared capacity fails with the TextOverflow error and produces no
output bytes; otherwise the encoder right-pads with zero bytes to exactly
the capacity. -/
theorem c6_overflow_rejection (cap : Nat) (s : List SJChar)
    (hv : s.all SJChar.valid = true) :
    ((sjisEncode s).length > cap →
        sjisFieldEncode cap s = .error .textOverflow ∧
        ∀ b : List Nat, sjisFieldEncode cap s ≠ .ok b) ∧
    ((sjisEncode s).length ≤ cap →
        sjisFieldEncode cap s = .ok (ljustZero cap (sjisEncode s)) ∧
        (ljustZero cap (sjisEncode s)).length = cap) := by
  constructor
  · intro hgt
    have he : sjisFieldEncode cap s = .error .textOverflow := by
      unfold sjisFieldEncode
      rw [if_neg (by simp [hv]), if_pos hgt]
    refine ⟨he, fun b hbad => ?_⟩
    rw [he] at hbad
    cases hbad
  · intro hle
    refine ⟨sjisFieldEncode_ok cap s ?_, ljustZero_length _ _ hle⟩
    simp [sjisOkClaimed, hv, hle]

theorem c6_overflow_rejection_witness :
    sjisFieldEncode 3 [SJChar.double 147 99, SJChar.double 146 134] =
      .error .textOverflow :=
  (((c6_overflow_rejection 3 [SJChar.double 147 99, SJChar.double 146 134]
      (by decide)).1) (by decide)).1

/-- C7: encoding the concrete Data record {record_id=1, name="田中太郎",
value=1000, status=1, timestamp="20240101120000", description="通常処理"}
yields 120 bytes whose byte 0 is 2 and whose bytes 1-4 little-endian are 1,
and decoding the result reproduces every field value exactly. -/
theorem c7_concrete_scenario :
    DataRecord.build dSample = .ok (dataBytes dSample) ∧
    (dataBytes dSample).length = 120 ∧
    (dataBytes dSample).head? = some 2 ∧
    ((dataBytes dSample).drop 1).take 4 = [1, 0, 0, 0] ∧
    decUintLE (((dataBytes dSample).drop 1).take 4) = 1 ∧
    parse_record (dataBytes dSample) = .ok (.data dSample) := by
  decide

/-- C8: the legacy text-field decode is total: on any byte sequence it strips
trailing zero bytes and then decodes ignoring undecodable bytes, never
failing; the bytes it does decode form a subsequence of the input (invalid
byte sequences are dropped, nothing is invented). -/
theorem c8_decode_total (bs : List Nat) :
    sjisFieldDecode bs = sjisDecodeIgnore (rstripZeros bs) ∧
    List.Sublist (sjisEncode (sjisFieldDecode bs)) bs :=
  ⟨rfl, (sjisEncode_decode_sublist (rstripZeros bs)).trans (rstripZeros_sublist bs)⟩

/-- C9 (counterexample): the exit-code convention fails as claimed.  An
unexpected failure in the generator or parser entry point exits with code 1,
not 2: both wrap their work in a catch-all that exits 1. -/
theorem c9_exit_codes_counterexample :
    generateMainExit 10 true = 1 ∧ generateMainExit 10 true ≠ 2 ∧
    parserMainExit true = 1 ∧ parserMainExit true ≠ 2 := by
  decide

/-- C9 (amended): the generator and parser entry points exit 0 on success and
1 on any error — validation errors and unexpected failures alike; only the
struct-size utility follows the full 0/1/2 convention (0 success, 1 invalid
format string, 2 unexpected failure). -/
theorem c9_exit_codes_amended :
    (∀ (n : Int) (g : Bool), generateMainExit n g = 0 ∨ generateMainExit n g = 1) ∧
    (∀ (n : Int) (g : Bool), n < 1 → generateMainExit n g = 1) ∧
    (∀ n : Int, 1 ≤ n → generateMainExit n false = 0) ∧
    (∀ n : Int, 1 ≤ n → generateMainExit n true = 1) ∧
    parserMainExit false = 0 ∧ parserMainExit true = 1 ∧
    (∀ u : Bool, structSizeMainExit true u = 1) ∧
    structSizeMainExit false true = 2 ∧ structSizeMainExit false false = 0 := by
  refine ⟨?_, ?_, ?_, ?_, rfl, rfl, ?_, rfl, rfl⟩
  · intro n g
    by_cases h : n < 1 <;> cases g <;> simp [generateMainExit, h]
  · intro n g h
    simp [generateMainExit, h]
  · intro n h
    simp [generateMainExit, show ¬ n < 1 from by omega]
  · intro n h
    simp [generateMainExit, show ¬ n < 1 from by omega]
  · intro u
    cases u <;> rfl

theorem c9_exit_codes_witness :
    generateMainExit 0 false = 1 ∧ generateMainExit 5 false = 0 ∧
    generateMainExit 5 true = 1 :=
  ⟨c9_exit_codes_amended.2.1 0 false (by decide),
   c9_exit_codes_amended.2.2.1 5 (by decide),
   c9_exit_codes_amended.2.2.2.1 5 (by decide)⟩

/-- C10: decoding strips all trailing zero bytes of the field, so for a
string that ends in a NUL character (and otherwise encodes within capacity)
the round-trip returns the string with its trailing NULs removed — not the
string itself — and the decoded result does not end in a NUL character. -/
theorem c10_trailing_nul (cap : Nat) (s : List SJChar)
    (hval : s.all SJChar.valid = true)
    (hfit : (sjisEncode s).length ≤ cap)
    (hnul : s.getLast? = some (.single 0)) :
    sjisFieldEncode cap s = .ok (ljustZero cap (sjisEncode s)) ∧
    sjisFieldDecode (ljustZero cap (sjisEncode s)) = dropTrailingNuls s ∧
    dropTrailingNuls s ≠ s ∧
    (sjisFieldDecode (ljustZero cap (sjisEncode s))).getLast? ≠
      some (.single 0) := by
  have hok : sjisOkClaimed cap s := by simp [sjisOkClaimed, hval, hfit]
  have hdec : sjisFieldDecode (ljustZero cap (sjisEncode s)) = dropTrailingNuls s := by
    unfold sjisFieldDecode ljustZero
    rw [rstripZeros_pad, rstrip_sjisEncode s hval]
    exact sjisDecodeIgnore_sjisEncode _ (dropTrailingNuls_all_valid s hval)
  refine ⟨sjisFieldEncode_ok cap s hok, hdec, dropTrailingNuls_ne s hnul, ?_⟩
  rw [hdec]
  exact dropTrailingNuls_getLast s

theorem c10_trailing_nul_witness :
    sjisFieldEncode 10 [SJChar.single 65, SJChar.single 0] =
      .ok (ljustZero 10 (sjisEncode [SJChar.single 65, SJChar.single 0])) ∧
    sjisFieldDecode (ljustZero 10 (sjisEncode [SJChar.single 65, SJChar.single 0])) =
      dropTrailingNuls [SJChar.single 65, SJChar.single 0] ∧
    dropTrailingNuls [SJChar.single 65, SJChar.single 0] ≠
      [SJChar.single 65, SJChar.single 0] ∧
    (sjisFieldDecode (ljustZero 10
        (sjisEncode [SJChar.single 65, SJChar.single 0]))).getLast? ≠
      some (.single 0) :=
  c10_trailing_nul 10 [SJChar.single 65, SJChar.single 0]
    (by decide) (by decide) (by decide)

end TryPyStruct
